import Mathlib

/-!
Verification of the bgzip-rs core against its specification.

The development shallowly embeds the code of `src/write.rs` (BGZF writer) and
`src/index/tbi.rs` (Tabix index parser, index queries and the indexed-region
scanner).  Machine integers are modelled as `Nat` with explicit `% 2 ^ 64`
(resp. `% 2 ^ 32`) where wrap-around matters; fallible Rust code returns
`Option` (with `none` standing for an out-of-bounds panic) or carries an
explicit error value.  Code that lives outside the embedded sources — the
DEFLATE primitive, the CRC32 primitive and the BGZF block header serializer —
is abstracted as a function parameter or modelled from the specification, as
noted on each definition.
-/

namespace Bgzip

/-- Record-level model of one data line as the indexed scanner sees it:
`vfo` is the virtual file offset of the line's first byte, `meta` tells
whether the line's first byte equals the index's meta character (such lines
are skipped), and `start`/`stop` are the coordinates the scanner computes
from the line (`src/index/tbi.rs` lines 90-117). -/
structure TRecord where
  vfo : Nat
  meta : Bool
  start : Nat
  stop : Nat
deriving DecidableEq, Repr

/-- Emission test of the scanner in overlap mode (`src/index/tbi.rs`
lines 142-147): a non-meta record is emitted exactly when
`start_pos < target_end` and `target_begin < end_pos`. -/
def overlapEmit (tb te : Nat) (r : TRecord) : Bool :=
  !r.meta && (decide (r.start < te) && decide (tb < r.stop))

/-- Emission test of the scanner in start-in-window mode (`src/index/tbi.rs`
lines 134-137): a non-meta record is emitted exactly when
`target_begin ≤ start_pos` and `start_pos < target_end`. -/
def startEmit (tb te : Nat) (r : TRecord) : Bool :=
  !r.meta && (decide (tb ≤ r.start) && decide (r.start < te))

/-- Scan of the records of one chunk in overlap mode, mirroring the inner
loop of `TabixFile::read` (`src/index/tbi.rs` lines 83-152) with
`scan_by_start_position_mode = false`: meta lines are skipped, a record is
emitted when `start_pos < target_end && target_begin < end_pos`, and the
rest of the chunk is abandoned when `target_end < start_pos`. -/
def scanChunkOverlap (tb te : Nat) : List TRecord → List (Nat × Nat)
  | [] => []
  | r :: rest =>
    if r.meta then scanChunkOverlap tb te rest
    else if r.start < te ∧ tb < r.stop then
      (r.start, r.stop) :: scanChunkOverlap tb te rest
    else if te < r.start then []
    else scanChunkOverlap tb te rest

/-- Scan of the records of one chunk in start-in-window mode, mirroring the
inner loop of `TabixFile::read` (`src/index/tbi.rs` lines 83-152) with
`scan_by_start_position_mode = true`: meta lines are skipped, a record is
emitted when `target_begin ≤ start_pos && start_pos < target_end`, and the
rest of the chunk is abandoned when `target_end ≤ start_pos`. -/
def scanChunkStart (tb te : Nat) : List TRecord → List (Nat × Nat)
  | [] => []
  | r :: rest =>
    if r.meta then scanChunkStart tb te rest
    else if tb ≤ r.start ∧ r.start < te then
      (r.start, r.stop) :: scanChunkStart tb te rest
    else if te ≤ r.start then []
    else scanChunkStart tb te rest

/-- Membership of a record in a chunk `(beg, end)` of virtual file offsets:
the reader is sought to the chunk's begin offset (`src/index/tbi.rs`
line 76) and lines are read while `tell < chunk end` (lines 84-88). -/
def inChunk (c : Nat × Nat) (r : TRecord) : Bool :=
  decide (c.1 ≤ r.vfo) && decide (r.vfo < c.2)

/-- Records of the file that lie inside one chunk, in file order. -/
def recsInChunk (file : List TRecord) (c : Nat × Nat) : List TRecord :=
  file.filter (inChunk c)

/-- Membership of a record in at least one of the chunks. -/
def inAnyChunk (chunks : List (Nat × Nat)) (r : TRecord) : Bool :=
  chunks.any (fun c => inChunk c r)

/-- Full emission sequence of repeated `read` calls after `fetch0` in
overlap mode: the chunks are visited in order, each scanned from its begin
offset (`src/index/tbi.rs` lines 64-163). -/
def scanAllOverlap (tb te : Nat) (chunks : List (Nat × Nat))
    (file : List TRecord) : List (Nat × Nat) :=
  (chunks.map (fun c => scanChunkOverlap tb te (recsInChunk file c))).flatten

/-- Full emission sequence of repeated `read` calls after `fetch_start0` in
start-in-window mode (`src/index/tbi.rs` lines 35-44 and 64-163). -/
def scanAllStart (tb te : Nat) (chunks : List (Nat × Nat))
    (file : List TRecord) : List (Nat × Nat) :=
  (chunks.map (fun c => scanChunkStart tb te (recsInChunk file c))).flatten

/-- One stored chunk of a bin (`src/index/tbi.rs` lines 301-305). -/
structure Chunk where
  chunk_beg : Nat
  chunk_end : Nat
deriving DecidableEq, Repr

/-- Binning-index entry of one bin (`src/index/tbi.rs` lines 294-299). -/
structure BinIndex where
  bin : Nat
  n_chunk : Nat
  chunks : List Chunk
deriving DecidableEq, Repr

/-- Per-reference index (`src/index/tbi.rs` lines 286-292); the Rust
`BTreeMap<u32, BinIndex>` is modelled as an association list kept sorted by
key with insertion overwriting an existing key. -/
structure SequenceIndex where
  n_bin : Nat
  bins : List (Nat × BinIndex)
  n_intv : Nat
  interval : List Nat
deriving DecidableEq, Repr

/-- Parsed Tabix index (`src/index/tbi.rs` lines 197-214); the Rust
`BTreeMap<Vec<u8>, u32>` is modelled as an association list kept sorted by
key with insertion overwriting an existing key. -/
structure TabixIndex where
  n_ref : Nat
  format : Nat
  col_seq : Nat
  col_beg : Nat
  col_end : Nat
  meta : Nat
  skip : Nat
  l_nm : Nat
  names : List (List Nat)
  name_to_index : List (List Nat × Nat)
  seq_index : List SequenceIndex
  zero_based : Bool
  sam_mode : Bool
  vcf_mode : Bool
deriving DecidableEq, Repr

/-- Linear-index window size (`src/index/tbi.rs` line 284). -/
def LINER_INTERVAL : Nat := 16 * 1024

/-- Embedding of `TabixIndex::start_chunks` (`src/index/tbi.rs`
lines 253-282).  `none` models both `io::Error` returns
("rid is not found" at line 258 and "out of index" at line 262, the two
cases of the spec's `OutOfIndex` error kind). -/
def TabixIndex.start_chunks (t : TabixIndex) (rid start_begin start_end : Nat) :
    Option (Nat × Nat) :=
  match t.seq_index[rid]? with
  | none => none
  | some seq_index =>
    let begin_index := start_begin / LINER_INTERVAL
    let end_index := (start_end + 1) / LINER_INTERVAL + 1
    if begin_index ≥ seq_index.interval.length then none
    else
      let end_index' := if end_index ≥ seq_index.interval.length then
        seq_index.interval.length - 1 else end_index
      some (seq_index.interval.getD begin_index 0, seq_index.interval.getD end_index' 0)

/-- Concrete index used to instantiate the `start_chunks` theorem. -/
def sampleSeq3 : SequenceIndex :=
  { n_bin := 0, bins := [], n_intv := 2, interval := [7, 9] }

/-- Concrete Tabix index used to instantiate the `start_chunks` theorem. -/
def sampleIndex3 : TabixIndex :=
  { n_ref := 1, format := 0, col_seq := 1, col_beg := 2, col_end := 3,
    meta := 35, skip := 0, l_nm := 2, names := [[97]],
    name_to_index := [([97], 0)], seq_index := [sampleSeq3],
    zero_based := false, sam_mode := false, vcf_mode := false }

/-- Exact read of `n` bytes from the decompressed stream
(`Read::read_exact`); fails when the stream is shorter. -/
def readBytes (n : Nat) (s : List Nat) : Option (List Nat × List Nat) :=
  if n ≤ s.length then some (s.take n, s.drop n) else none

/-- Modelled from the spec: the helper `read_le_u32` used by the parser is
declared outside the embedded sources; per the spec all TBI header integers
are little-endian `u32`. -/
def read_le_u32 (s : List Nat) : Option (Nat × List Nat) :=
  match s with
  | b0 :: b1 :: b2 :: b3 :: rest =>
    some (b0 % 256 + (b1 % 256) * 256 + (b2 % 256) * 65536 + (b3 % 256) * 16777216, rest)
  | _ => none

/-- Modelled from the spec: the helper `read_le_u64` used by the parser is
declared outside the embedded sources; per the spec chunk offsets and
linear-index offsets are little-endian `u64`. -/
def read_le_u64 (s : List Nat) : Option (Nat × List Nat) :=
  match s with
  | b0 :: b1 :: b2 :: b3 :: b4 :: b5 :: b6 :: b7 :: rest =>
    some (b0 % 256 + (b1 % 256) * 256 + (b2 % 256) * 65536 + (b3 % 256) * 16777216
      + (b4 % 256) * 4294967296 + (b5 % 256) * 1099511627776
      + (b6 % 256) * 281474976710656 + (b7 % 256) * 72057594037927936, rest)
  | _ => none

/-- Splitting of the `l_nm` name bytes on NUL (`src/index/tbi.rs`
lines 329-342): each NUL byte terminates one name; trailing bytes after the
last NUL are discarded, exactly as in the code. -/
def splitNames : List Nat → List Nat → List (List Nat)
  | [], _temp => []
  | b :: rest, temp =>
    if b = 0 then temp :: splitNames rest []
    else splitNames rest (temp ++ [b])

/-- Map insertion with overwrite, modelling `BTreeMap::insert`.  The claims
never depend on the map's iteration order, so an association list with
in-place overwrite is an adequate model. -/
def assocInsert {α β : Type} [DecidableEq α] (k : α) (v : β) :
    List (α × β) → List (α × β)
  | [] => [(k, v)]
  | (k', v') :: rest =>
    if k = k' then (k, v) :: rest else (k', v') :: assocInsert k v rest

/-- Chunk-list parse loop of `TabixIndex::new` (`src/index/tbi.rs`
lines 355-362). -/
def parseChunks : Nat → List Nat → Option (List Chunk × List Nat)
  | 0, s => some ([], s)
  | n + 1, s => do
    let (cb, s1) ← read_le_u64 s
    let (ce, s2) ← read_le_u64 s1
    let (rest, s3) ← parseChunks n s2
    some ({ chunk_beg := cb, chunk_end := ce } :: rest, s3)

/-- Bin parse loop of `TabixIndex::new` (`src/index/tbi.rs` lines 349-371). -/
def parseBins : Nat → List (Nat × BinIndex) → List Nat →
    Option (List (Nat × BinIndex) × List Nat)
  | 0, acc, s => some (acc, s)
  | n + 1, acc, s => do
    let (bin, s1) ← read_le_u32 s
    let (n_chunk, s2) ← read_le_u32 s1
    let (chunks, s3) ← parseChunks n_chunk s2
    parseBins n (assocInsert bin { bin := bin, n_chunk := n_chunk, chunks := chunks } acc) s3

/-- Linear-index parse loop of `TabixIndex::new` (`src/index/tbi.rs`
lines 373-378). -/
def parseIntervals : Nat → List Nat → Option (List Nat × List Nat)
  | 0, s => some ([], s)
  | n + 1, s => do
    let (ioff, s1) ← read_le_u64 s
    let (rest, s2) ← parseIntervals n s1
    some (ioff :: rest, s2)

/-- Per-reference parse loop of `TabixIndex::new` (`src/index/tbi.rs`
lines 344-385).  `names[i]` is an unchecked indexing in the code
(line 346); the model returns `none` for the out-of-bounds panic. -/
def parseRefs (names : List (List Nat)) : Nat → Nat → List (List Nat × Nat) →
    List Nat → Option (List SequenceIndex × List (List Nat × Nat) × List Nat)
  | 0, _i, ntbl, s => some ([], ntbl, s)
  | n + 1, i, ntbl, s => do
    let name ← names[i]?
    let ntbl1 := assocInsert name i ntbl
    let (n_bin, s1) ← read_le_u32 s
    let (bins, s2) ← parseBins n_bin [] s1
    let (n_intv, s3) ← read_le_u32 s2
    let (interval, s4) ← parseIntervals n_intv s3
    let (rest, ntbl2, s5) ← parseRefs names n (i + 1) ntbl1 s4
    some ({ n_bin := n_bin, bins := bins, n_intv := n_intv, interval := interval } :: rest,
      ntbl2, s5)

/-- Embedding of `TabixIndex::new` (`src/index/tbi.rs` lines 308-411) over
the already-decompressed byte stream (the `MultiGzDecoder` wrapper is the
external flate2 library).  `none` models a short read, a magic mismatch or
an out-of-bounds `names[i]` access; bytes left over after the parsed index
are ignored, exactly as in the code. -/
def TabixIndex.new (s : List Nat) : Option TabixIndex :=
  (readBytes 4 s).bind fun ms =>
  if ms.1 = [84, 66, 73, 1] then
    (read_le_u32 ms.2).bind fun pRef =>
    (read_le_u32 pRef.2).bind fun pFmt =>
    (read_le_u32 pFmt.2).bind fun pSeq =>
    (read_le_u32 pSeq.2).bind fun pBeg =>
    (read_le_u32 pBeg.2).bind fun pEnd =>
    (read_le_u32 pEnd.2).bind fun pMeta =>
    (read_le_u32 pMeta.2).bind fun pSkip =>
    (read_le_u32 pSkip.2).bind fun pNm =>
    (readBytes pNm.1 pNm.2).bind fun pNames =>
    (parseRefs (splitNames pNames.1 []) pRef.1 0 [] pNames.2).bind fun pr =>
    some (TabixIndex.mk pRef.1 pFmt.1 pSeq.1 pBeg.1
      (if pFmt.1 == 2 then 5 else pEnd.1) pMeta.1 pSkip.1 pNm.1
      (splitNames pNames.1 []) pr.2.1 pr.1
      (decide (0 < Nat.land pFmt.1 65536)) (pFmt.1 == 1) (pFmt.1 == 2))
  else none

/-- Concrete TBI stream with `format = 0x10002` (low 16 bits select VCF,
bit 16 set), stored `col_end = 3`, one reference named `"a"`, no bins and
no linear-index entries. -/
def c4Bytes : List Nat :=
  [84, 66, 73, 1,
   1, 0, 0, 0,
   2, 0, 1, 0,
   1, 0, 0, 0,
   4, 0, 0, 0,
   3, 0, 0, 0,
   35, 0, 0, 0,
   0, 0, 0, 0,
   2, 0, 0, 0,
   97, 0,
   0, 0, 0, 0,
   0, 0, 0, 0]

/-- Index parsed from `c4Bytes`. -/
def c4Idx : TabixIndex :=
  { n_ref := 1, format := 65538, col_seq := 1, col_beg := 4, col_end := 3,
    meta := 35, skip := 0, l_nm := 2, names := [[97]],
    name_to_index := [([97], 0)],
    seq_index := [{ n_bin := 0, bins := [], n_intv := 0, interval := [] }],
    zero_based := true, sam_mode := false, vcf_mode := false }

/-- Seek target computed by `TabixFile::new` (`src/index/tbi.rs` line 171):
the two unchecked indexings `seq_index[0]` and `interval[0]` are modelled
as `Option` lookups, `none` standing for the out-of-bounds panic. -/
def seekTargetOf (idx : TabixIndex) : Option Nat :=
  idx.seq_index[0]?.bind (fun s0 => s0.interval[0]?)

/-- Embedding of `TabixFile::new` (`src/index/tbi.rs` lines 166-186): the
index is parsed and the BGZF reader is unconditionally sought to
`seq_index[0].interval[0]`.  `BGzReader::new` and the seek itself live
outside the embedded sources and are modelled as succeeding; the result
keeps the parsed index and the seek target. -/
def TabixFile.new (s : List Nat) : Option (TabixIndex × Nat) :=
  (TabixIndex.new s).bind fun idx =>
  (seekTargetOf idx).bind fun v =>
  some (idx, v)

/-- Concrete TBI stream with one reference whose linear index holds the
single offset 513. -/
def c8Bytes : List Nat :=
  [84, 66, 73, 1,
   1, 0, 0, 0,
   0, 0, 0, 0,
   1, 0, 0, 0,
   2, 0, 0, 0,
   3, 0, 0, 0,
   35, 0, 0, 0,
   0, 0, 0, 0,
   2, 0, 0, 0,
   97, 0,
   0, 0, 0, 0,
   1, 0, 0, 0,
   1, 2, 0, 0, 0, 0, 0, 0]

/-- Index parsed from `c8Bytes`. -/
def c8Idx : TabixIndex :=
  { n_ref := 1, format := 0, col_seq := 1, col_beg := 2, col_end := 3,
    meta := 35, skip := 0, l_nm := 2, names := [[97]],
    name_to_index := [([97], 0)],
    seq_index := [{ n_bin := 0, bins := [], n_intv := 1, interval := [513] }],
    zero_based := false, sam_mode := false, vcf_mode := false }

/-- Scanner-level error values of `TabixFile::read`: the spec's
`ParseRecord` (coordinate field not valid UTF-8 decimal) and `Unsupported`
(SAM mode) kinds. -/
inductive ScanError where
  | parseRecord
  | samUnsupported
deriving DecidableEq, Repr

/-- Decidable equality for `Except`, needed to evaluate scanner results on
concrete inputs. -/
instance {e a : Type} [DecidableEq e] [DecidableEq a] : DecidableEq (Except e a) := fun x y =>
  match x, y with
  | .ok u, .ok v =>
    if h : u = v then isTrue (by rw [h]) else isFalse (by intro hc; cases hc; exact h rfl)
  | .error u, .error v =>
    if h : u = v then isTrue (by rw [h]) else isFalse (by intro hc; cases hc; exact h rfl)
  | .ok _, .error _ => isFalse (by intro hc; cases hc)
  | .error _, .ok _ => isFalse (by intro hc; cases hc)

/-- Embedding of `convert_data_to_u64` (`src/index/tbi.rs` lines 414-419):
UTF-8 decoding followed by `str::parse::<u64>`, which accepts an optional
leading `+` followed by one or more ASCII digits and rejects values that do
not fit in 64 bits.  `none` models the returned `io::Error` (the spec's
`ParseRecord` kind). -/
def convert_data_to_u64 (data : List Nat) : Option Nat :=
  let core := match data with
    | 43 :: rest => rest
    | _ => data
  if core ≠ [] ∧ core.all (fun b => decide (48 ≤ b) && decide (b ≤ 57)) then
    let v := core.foldl (fun acc b => acc * 10 + (b - 48)) 0
    if v < 2 ^ 64 then some v else none
  else none

/-- Maximum 1-based column position, as computed by `TabixFile::new`
(`src/index/tbi.rs` line 175). -/
def maxColumnPos (t : TabixIndex) : Nat :=
  max t.col_beg (max t.col_end t.col_seq)

/-- Start-coordinate computation of `TabixFile::read` (`src/index/tbi.rs`
lines 103-105): `convert_data_to_u64(start_text)? - if zero_based { 0 } else { 1 }`
in `u64` arithmetic.  The outer `Option` models a panic: an out-of-bounds
access `elements[col_beg - 1]` (also when `col_beg = 0`, whose `usize`
subtraction underflows).  The release-build wrapping subtraction is
modelled as `+ (2^64 - 1) (mod 2^64)`; a debug build panics on underflow
instead. -/
def startOf (t : TabixIndex) (elements : List (List Nat)) :
    Option (Except ScanError Nat) :=
  if t.col_beg = 0 then none
  else match elements[t.col_beg - 1]? with
  | none => none
  | some start_text =>
    match convert_data_to_u64 start_text with
    | none => some (.error .parseRecord)
    | some v =>
      some (.ok (if t.zero_based then v else (v + (2 ^ 64 - 1)) % 2 ^ 64))

/-- Per-line processing of `TabixFile::read` (`src/index/tbi.rs`
lines 90-117) on one line `data` returned by `read_until`: `none` models a
panic (empty line at `data[0]`, a column access out of bounds, or a
`col_beg`/`col_end` of 0 whose `- 1` underflows); `some (.error e)` an
early `Err` return; `some (.ok none)` a skipped meta line; and
`some (.ok (some (start, stop)))` the coordinate pair handed to the mode
decision. -/
def processLine (t : TabixIndex) (data : List Nat) :
    Option (Except ScanError (Option (Nat × Nat))) :=
  match data[0]? with
  | none => none
  | some b0 =>
    if b0 = t.meta % 256 then some (.ok none)
    else
      let elements := (data.splitOn 9).take (maxColumnPos t + 1)
      match startOf t elements with
      | none => none
      | some (.error e) => some (.error e)
      | some (.ok start_pos) =>
        if t.col_end = 0 then none
        else match elements[t.col_end - 1]? with
        | none => none
        | some end_text =>
          if t.vcf_mode then
            some (.ok (some (start_pos, (start_pos + end_text.length) % 2 ^ 64)))
          else if t.sam_mode then some (.error .samUnsupported)
          else match convert_data_to_u64 end_text with
            | none => some (.error .parseRecord)
            | some e => some (.ok (some (start_pos, e)))

/-- Index configuration with `col_seq = 1`, `col_beg = 1`, `col_end = 3`,
meta character `\x23` and generic (non-VCF, non-SAM) one-based mode. -/
def c9Idx : TabixIndex :=
  { n_ref := 1, format := 0, col_seq := 1, col_beg := 1, col_end := 3,
    meta := 35, skip := 0, l_nm := 2, names := [[97]],
    name_to_index := [([97], 0)],
    seq_index := [{ n_bin := 0, bins := [], n_intv := 0, interval := [] }],
    zero_based := false, sam_mode := false, vcf_mode := false }

/-- One item appended to the underlying stream by the BGZF writer: a block
(header bytes, compressed payload, CRC32 bytes, and the uncompressed byte
count written as ISIZE) or the 28-byte EOF marker. -/
inductive OutItem where
  | block (header : List Nat) (payload : List Nat) (crc : List Nat) (isize : Nat)
  | footer
deriving DecidableEq, Repr

/-- Little-endian 4-byte serialization (`u32::to_le_bytes`); values at or
above `2^32` are truncated as by an `as u32` cast. -/
def le32 (n : Nat) : List Nat :=
  [n % 256, n / 256 % 256, n / 65536 % 256, n / 16777216 % 256]

/-- The 28-byte BGZF end-of-file marker (`src/write.rs` lines 97-100). -/
def FOOTER_BYTES : List Nat :=
  [0x1f, 0x8b, 0x08, 0x04, 0x00, 0x00, 0x00, 0x00, 0x00, 0xff, 0x06, 0x00,
   0x42, 0x43, 0x02, 0x00, 0x1b, 0x00, 0x03, 0x00, 0x00, 0x00, 0x00, 0x00,
   0x00, 0x00, 0x00, 0x00]

/-- Modelled from the spec: `header::BGZFHeader::new(true, 0, clen).write`
is declared outside the embedded sources; per the spec the 18-byte block
header is `1f 8b 08 04 mtime(4)=0 xfl=0 os=ff xlen(2)=6 42 43 02 00
bsize(2,le)` with `BSIZE = total block length - 1 = clen + 25`. -/
def bgzfHeaderBytes (clen : Nat) : List Nat :=
  [0x1f, 0x8b, 0x08, 0x04, 0, 0, 0, 0, 0, 0xff, 6, 0, 0x42, 0x43, 2, 0,
   (clen + 25) % 256, (clen + 25) / 256 % 256]

/-- Byte serialization of one output item, following the write order of
`write_block` (`src/write.rs` lines 55-62): header, compressed payload,
CRC32, ISIZE. -/
def OutItem.bytes : OutItem → List Nat
  | .block h p c i => h ++ p ++ c ++ le32 i
  | .footer => FOOTER_BYTES

/-- Full byte stream written to the underlying writer. -/
def outBytes (l : List OutItem) : List Nat :=
  (l.map OutItem.bytes).flatten

/-- State of a `BGZFWriter` (`src/write.rs` lines 8-15); the underlying
stream is the list of output items already written, and the `level` field
is irrelevant to the model because compression is an abstract function. -/
structure BGZFWriter where
  out : List OutItem
  buffer : List Nat
  compress_block_unit : Nat
  closed : Bool
deriving DecidableEq, Repr

/-- Default BGZF block size (`src/write.rs` line 18). -/
def DEFAULT_COMPRESS_BLOCK_UNIT : Nat := 65280

/-- `BGZFWriter::new` (`src/write.rs` lines 22-31) over an empty stream. -/
def BGZFWriter.new : BGZFWriter :=
  { out := [], buffer := [],
    compress_block_unit := DEFAULT_COMPRESS_BLOCK_UNIT, closed := false }

/-- `BGZFWriter::with_block_size` (`src/write.rs` lines 34-43). -/
def BGZFWriter.with_block_size (block_size : Nat) : BGZFWriter :=
  { out := [], buffer := [], compress_block_unit := block_size, closed := false }

/-- `BGZFWriter::write_block` (`src/write.rs` lines 45-65): compress the
first `min(compress_block_unit, buffer.len())` buffered bytes, append
header, compressed payload, CRC32 and ISIZE to the stream, and drain those
bytes from the buffer.  The DEFLATE encoder and the CRC32 primitive are
external library code, passed as abstract functions. -/
def writeBlock (deflate : List Nat → List Nat) (crc32 : List Nat → Nat)
    (w : BGZFWriter) : BGZFWriter :=
  let ub := min w.compress_block_unit w.buffer.length
  let chunkData := w.buffer.take ub
  let compressed := deflate chunkData
  { w with
    out := w.out ++ [.block (bgzfHeaderBytes compressed.length) compressed
      (le32 ((crc32 chunkData) % 4294967296)) (ub % 4294967296)],
    buffer := w.buffer.drop ub }

/-- The `while self.compress_block_unit < self.buffer.len()` loop of
`io::Write::write` (`src/write.rs` lines 84-86).  The recursion carries the
extra guard `0 < compress_block_unit` only to terminate: with a block unit
of 0 and a longer buffer the Rust loop itself never terminates, because
`write_block` then drains 0 bytes per iteration. -/
def drainWrite (deflate : List Nat → List Nat) (crc32 : List Nat → Nat)
    (w : BGZFWriter) : BGZFWriter :=
  if h : w.compress_block_unit < w.buffer.length ∧ 0 < w.compress_block_unit then
    drainWrite deflate crc32 (writeBlock deflate crc32 w)
  else w
termination_by w.buffer.length
decreasing_by
  simp [writeBlock]
  omega

/-- The `while !self.buffer.is_empty()` loop of `io::Write::flush`
(`src/write.rs` lines 90-92), guarded likewise by
`0 < compress_block_unit` for termination. -/
def drainFlush (deflate : List Nat → List Nat) (crc32 : List Nat → Nat)
    (w : BGZFWriter) : BGZFWriter :=
  if h : w.buffer ≠ [] ∧ 0 < w.compress_block_unit then
    drainFlush deflate crc32 (writeBlock deflate crc32 w)
  else w
termination_by w.buffer.length
decreasing_by
  simp [writeBlock]
  have : w.buffer.length ≠ 0 := by
    intro hz
    exact h.1 (List.eq_nil_of_length_eq_zero hz)
  omega

/-- `io::Write::write` (`src/write.rs` lines 82-88): extend the buffer,
then emit blocks while it holds more than `compress_block_unit` bytes. -/
def writeOp (deflate : List Nat → List Nat) (crc32 : List Nat → Nat)
    (w : BGZFWriter) (buf : List Nat) : BGZFWriter :=
  drainWrite deflate crc32 { w with buffer := w.buffer ++ buf }

/-- `io::Write::flush` (`src/write.rs` lines 89-94): emit blocks until the
buffer is empty. -/
def flushOp (deflate : List Nat → List Nat) (crc32 : List Nat → Nat)
    (w : BGZFWriter) : BGZFWriter :=
  drainFlush deflate crc32 w

/-- `BGZFWriter::close` (`src/write.rs` lines 71-78): when not yet closed,
flush, append the EOF marker and mark closed. -/
def closeOp (deflate : List Nat → List Nat) (crc32 : List Nat → Nat)
    (w : BGZFWriter) : BGZFWriter :=
  if w.closed then w
  else
    let w1 := drainFlush deflate crc32 w
    { w1 with out := w1.out ++ [.footer], closed := true }

/-- `Drop::drop` (`src/write.rs` lines 102-110): same footer logic as
`close`, run on scoped release. -/
def dropOp (deflate : List Nat → List Nat) (crc32 : List Nat → Nat)
    (w : BGZFWriter) : BGZFWriter :=
  if w.closed then w
  else
    let w1 := drainFlush deflate crc32 w
    { w1 with out := w1.out ++ [.footer], closed := true }

/-- Writer operations available between construction and finalization:
`io::Write::write` and `io::Write::flush`. -/
inductive PlainOp where
  | wr (data : List Nat)
  | fl
deriving DecidableEq, Repr

/-- Finalization paths of the writer: explicit `close`, scoped `drop`, or
`close` followed by the `drop` that runs when `close(mut self)` returns. -/
inductive Finalizer where
  | closeOnly
  | dropOnly
  | closeThenDrop
deriving DecidableEq, Repr

/-- Application of one writer operation. -/
def applyPlain (deflate : List Nat → List Nat) (crc32 : List Nat → Nat)
    (w : BGZFWriter) : PlainOp → BGZFWriter
  | .wr data => writeOp deflate crc32 w data
  | .fl => flushOp deflate crc32 w

/-- Sequential application of writer operations. -/
def runPlain (deflate : List Nat → List Nat) (crc32 : List Nat → Nat) :
    List PlainOp → BGZFWriter → BGZFWriter
  | [], w => w
  | op :: rest, w => runPlain deflate crc32 rest (applyPlain deflate crc32 w op)

/-- Application of a finalization path. -/
def applyFin (deflate : List Nat → List Nat) (crc32 : List Nat → Nat)
    (w : BGZFWriter) : Finalizer → BGZFWriter
  | .closeOnly => closeOp deflate crc32 w
  | .dropOnly => dropOp deflate crc32 w
  | .closeThenDrop => dropOp deflate crc32 (closeOp deflate crc32 w)

/-- Test for the EOF-marker item. -/
def isFooter : OutItem → Bool
  | .footer => true
  | .block _ _ _ _ => false

/-- Number of EOF markers in the written stream. -/
def footerCount (l : List OutItem) : Nat := l.countP isFooter

/-- Bound on the uncompressed size recorded in an output item: blocks carry
at most `u` uncompressed bytes, the EOF marker none. -/
def isizeBounded (u : Nat) : OutItem → Prop
  | .block _ _ _ i => i ≤ u
  | .footer => True

theorem scanChunkOverlap_eq_filter (tb te : Nat) (l : List TRecord)
    (hs : l.Pairwise (fun a b => a.meta = false → b.meta = false → a.start ≤ b.start)) :
    scanChunkOverlap tb te l
      = (l.filter (overlapEmit tb te)).map (fun r => (r.start, r.stop)) := by
  induction l with
  | nil => rfl
  | cons r rest ih =>
    rcases List.pairwise_cons.mp hs with ⟨hr, hrest⟩
    by_cases hm : r.meta
    · simp [scanChunkOverlap, hm, overlapEmit, ih hrest]
    · by_cases he : r.start < te ∧ tb < r.stop
      · simp [scanChunkOverlap, hm, he, overlapEmit, he.1, he.2, ih hrest]
      · by_cases hb : te < r.start
        · have hnil : rest.filter (overlapEmit tb te) = [] := by
            refine List.filter_eq_nil_iff.mpr ?_
            intro b hbmem
            by_cases hbm : b.meta
            · simp [overlapEmit, hbm]
            · have hle : r.start ≤ b.start :=
                hr b hbmem (by simp [hm]) (by simp [hbm])
              have : ¬ b.start < te := by omega
              simp [overlapEmit, this]
          have hre : ¬ (r.start < te ∧ tb < r.stop) := he
          simp [scanChunkOverlap, hm, hre, hb, overlapEmit, hnil,
            show ¬ r.start < te by omega]
        · have : ¬ (r.start < te) ∨ ¬ (tb < r.stop) := by tauto
          rcases this with h1 | h1
          · simp [scanChunkOverlap, hm, he, hb, overlapEmit, h1, ih hrest]
          · simp [scanChunkOverlap, hm, he, hb, overlapEmit, h1, ih hrest]

theorem scanChunkStart_eq_filter (tb te : Nat) (l : List TRecord)
    (hs : l.Pairwise (fun a b => a.meta = false → b.meta = false → a.start ≤ b.start)) :
    scanChunkStart tb te l
      = (l.filter (startEmit tb te)).map (fun r => (r.start, r.stop)) := by
  induction l with
  | nil => rfl
  | cons r rest ih =>
    rcases List.pairwise_cons.mp hs with ⟨hr, hrest⟩
    by_cases hm : r.meta
    · simp [scanChunkStart, hm, startEmit, ih hrest]
    · by_cases he : tb ≤ r.start ∧ r.start < te
      · simp [scanChunkStart, hm, he, startEmit, he.1, he.2, ih hrest]
      · by_cases hb : te ≤ r.start
        · have hnil : rest.filter (startEmit tb te) = [] := by
            refine List.filter_eq_nil_iff.mpr ?_
            intro b hbmem
            by_cases hbm : b.meta
            · simp [startEmit, hbm]
            · have hle : r.start ≤ b.start :=
                hr b hbmem (by simp [hm]) (by simp [hbm])
              have : ¬ b.start < te := by omega
              simp [startEmit, this]
          simp [scanChunkStart, hm, he, hb, startEmit, hnil,
            show ¬ r.start < te by omega]
        · have : ¬ (tb ≤ r.start) ∨ ¬ (r.start < te) := by tauto
          rcases this with h1 | h1
          · simp [scanChunkStart, hm, he, hb, startEmit, h1, ih hrest]
          · simp [scanChunkStart, hm, he, hb, startEmit, h1, ih hrest]

theorem filter_append_filter_of_sep (l : List TRecord)
    (hl : l.Pairwise (fun a b => a.vfo < b.vfo)) (p q : TRecord → Bool)
    (hpq : ∀ a ∈ l, ∀ b ∈ l, p a = true → q b = true → a.vfo < b.vfo) :
    l.filter p ++ l.filter q = l.filter (fun a => p a || q a) := by
  induction l with
  | nil => rfl
  | cons a t ih =>
    rcases List.pairwise_cons.mp hl with ⟨ha, ht⟩
    have hpq' : ∀ x ∈ t, ∀ y ∈ t, p x = true → q y = true → x.vfo < y.vfo := by
      intro x hx y hy hpx hqy
      exact hpq x (List.mem_cons_of_mem _ hx) y (List.mem_cons_of_mem _ hy) hpx hqy
    by_cases hp : p a = true
    · have hq : q a = false := by
        by_contra hq
        have := hpq a (List.mem_cons_self _ _) a (List.mem_cons_self _ _) hp
          (by revert hq; cases q a <;> simp)
        omega
      simp only [List.filter_cons, hp, hq, if_true]
      simp only [Bool.or_eq_true, hp, true_or, if_true]
      rw [List.cons_append]
      congr 1
      exact ih ht hpq'
    · by_cases hq : q a = true
      · have hptnil : t.filter p = [] := by
          refine List.filter_eq_nil_iff.mpr ?_
          intro b hb hpb
          have h1 := hpq b (List.mem_cons_of_mem _ hb) a (List.mem_cons_self _ _) hpb hq
          have h2 := ha b hb
          omega
        have hqt : t.filter (fun x => p x || q x) = t.filter q := by
          refine List.filter_congr ?_
          intro b hb
          have hpb : p b = false := by
            by_contra hc
            have : p b = true := by revert hc; cases p b <;> simp
            have := List.filter_eq_nil_iff.mp hptnil b hb
            simp [this] at *
          simp [hpb]
        simp only [List.filter_cons, hq, hp, if_false, Bool.or_eq_true, hq, or_true, if_true]
        simp [hptnil, hqt]
      · have hp' : p a = false := by revert hp; cases p a <;> simp
        have hq' : q a = false := by revert hq; cases q a <;> simp
        simp only [List.filter_cons, hp', hq', Bool.or_eq_true]
        simp only [hp', hq', Bool.false_eq_true, false_or, or_self, if_false]
        exact ih ht hpq'

theorem flatten_filter_chunks (file : List TRecord)
    (hvfo : file.Pairwise (fun a b => a.vfo < b.vfo)) (em : TRecord → Bool) :
    ∀ chunks : List (Nat × Nat), chunks.Pairwise (fun c d => c.2 ≤ d.1) →
      (chunks.map (fun c => file.filter (fun r => inChunk c r && em r))).flatten
        = file.filter (fun r => inAnyChunk chunks r && em r) := by
  intro chunks
  induction chunks with
  | nil =>
    intro _
    simp [inAnyChunk]
  | cons c rest ih =>
    intro hc
    rcases List.pairwise_cons.mp hc with ⟨hcr, hrest⟩
    have htail := ih hrest
    simp only [List.map_cons, List.flatten_cons, htail]
    have hsep := filter_append_filter_of_sep file hvfo
      (fun r => inChunk c r && em r) (fun r => inAnyChunk rest r && em r) ?_
    · rw [hsep]
      refine List.filter_congr ?_
      intro r _
      simp only [inAnyChunk, List.any_cons]
      cases h1 : inChunk c r <;> cases h2 : rest.any (fun d => inChunk d r) <;>
        cases h3 : em r <;> simp
    · intro a _ b _ hpa hqb
      have h1 : inChunk c a = true ∧ em a = true := by simpa using hpa
      have h2 : inAnyChunk rest b = true ∧ em b = true := by simpa using hqb
      rcases List.any_eq_true.mp h2.1 with ⟨d, hd, hdb⟩
      have h3 : a.vfo < c.2 := by
        have := h1.1
        simp only [inChunk, Bool.and_eq_true, decide_eq_true_eq] at this
        exact this.2
      have h4 : d.1 ≤ b.vfo := by
        simp only [inChunk, Bool.and_eq_true, decide_eq_true_eq] at hdb
        exact hdb.1
      have h5 : c.2 ≤ d.1 := hcr d hd
      omega

/-- C1: after `fetch0(rid, begin, end)`, for a coordinate-sorted file whose
index is consistent with it (the simplified chunk list is sorted and
pairwise disjoint and covers every record overlapping the target window),
repeated `read` calls emit every record whose `[start, stop)` intersects
`[target_begin, target_end)` and no others, in file order; per record the
decision is emit iff `start < target_end && target_begin < end`, and the
current chunk is abandoned when `target_end < start`
(`src/index/tbi.rs`, `TabixFile::fetch0` and `TabixFile::read`). -/
theorem c1_overlap_scan_emits_exactly_overlapping (tb te : Nat)
    (file : List TRecord) (chunks : List (Nat × Nat))
    (hvfo : file.Pairwise (fun a b => a.vfo < b.vfo))
    (hcoord : file.Pairwise (fun a b => a.meta = false → b.meta = false → a.start ≤ b.start))
    (hchunks : chunks.Pairwise (fun c d => c.2 ≤ d.1))
    (hcover : ∀ r ∈ file, overlapEmit tb te r = true → inAnyChunk chunks r = true) :
    scanAllOverlap tb te chunks file
      = (file.filter (overlapEmit tb te)).map (fun r => (r.start, r.stop)) := by
  have hchunkmap : chunks.map (fun c => scanChunkOverlap tb te (recsInChunk file c))
      = chunks.map (fun c =>
          ((recsInChunk file c).filter (overlapEmit tb te)).map (fun r => (r.start, r.stop))) := by
    refine List.map_congr_left ?_
    intro c _
    exact scanChunkOverlap_eq_filter tb te _ (hcoord.sublist (List.filter_sublist _))
  have hff : chunks.map (fun c => (recsInChunk file c).filter (overlapEmit tb te))
      = chunks.map (fun c => file.filter (fun r => inChunk c r && overlapEmit tb te r)) := by
    refine List.map_congr_left ?_
    intro c _
    unfold recsInChunk
    rw [List.filter_filter]
    refine List.filter_congr ?_
    intro r _
    cases overlapEmit tb te r <;> cases inChunk c r <;> simp
  calc scanAllOverlap tb te chunks file
      = (chunks.map (fun c =>
          ((recsInChunk file c).filter (overlapEmit tb te)).map
            (fun r => (r.start, r.stop)))).flatten := by
        rw [scanAllOverlap, hchunkmap]
    _ = ((chunks.map (fun c => (recsInChunk file c).filter (overlapEmit tb te))).map
          (List.map (fun r => (r.start, r.stop)))).flatten := by
        rw [List.map_map]
        rfl
    _ = ((chunks.map (fun c => (recsInChunk file c).filter (overlapEmit tb te))).flatten).map
          (fun r => (r.start, r.stop)) :=
        (List.map_flatten _ _).symm
    _ = (file.filter (fun r => inAnyChunk chunks r && overlapEmit tb te r)).map
          (fun r => (r.start, r.stop)) := by
        rw [hff, flatten_filter_chunks file hvfo (overlapEmit tb te) chunks hchunks]
    _ = (file.filter (overlapEmit tb te)).map (fun r => (r.start, r.stop)) := by
        congr 1
        refine List.filter_congr ?_
        intro r hmem
        cases hem : overlapEmit tb te r
        · simp
        · simp [hcover r hmem hem]

theorem c1_overlap_scan_emits_exactly_overlapping_witness :
    ([⟨0, false, 1, 3⟩, ⟨5, false, 4, 8⟩] : List TRecord).Pairwise
        (fun a b => a.vfo < b.vfo) ∧
    ([⟨0, false, 1, 3⟩, ⟨5, false, 4, 8⟩] : List TRecord).Pairwise
        (fun a b => a.meta = false → b.meta = false → a.start ≤ b.start) ∧
    ([((0 : Nat), (10 : Nat))]).Pairwise (fun c d => c.2 ≤ d.1) ∧
    (∀ r ∈ ([⟨0, false, 1, 3⟩, ⟨5, false, 4, 8⟩] : List TRecord),
      overlapEmit 2 6 r = true → inAnyChunk [(0, 10)] r = true) ∧
    scanAllOverlap 2 6 [(0, 10)] [⟨0, false, 1, 3⟩, ⟨5, false, 4, 8⟩]
      = (([⟨0, false, 1, 3⟩, ⟨5, false, 4, 8⟩] : List TRecord).filter
          (overlapEmit 2 6)).map (fun r => (r.start, r.stop)) :=
  ⟨by decide, by decide, by decide, by decide,
    c1_overlap_scan_emits_exactly_overlapping 2 6
      [⟨0, false, 1, 3⟩, ⟨5, false, 4, 8⟩] [(0, 10)]
      (by decide) (by decide) (by decide) (by decide)⟩

/-- C2: after `fetch_start0(rid, begin, end)`, for a coordinate-sorted file
whose index is consistent with it (the single chunk covers every record
whose start lies in the target window), repeated `read` calls emit exactly
those records with `target_begin ≤ start < target_end`; per record the
decision is emit iff `target_begin ≤ start < target_end`, and the single
chunk is abandoned when `target_end ≤ start`
(`src/index/tbi.rs`, `TabixFile::fetch_start0` and `TabixFile::read`). -/
theorem c2_start_scan_emits_exactly_in_window (tb te : Nat)
    (file : List TRecord) (c : Nat × Nat)
    (_hvfo : file.Pairwise (fun a b => a.vfo < b.vfo))
    (hcoord : file.Pairwise (fun a b => a.meta = false → b.meta = false → a.start ≤ b.start))
    (hcover : ∀ r ∈ file, startEmit tb te r = true → inChunk c r = true) :
    scanAllStart tb te [c] file
      = (file.filter (startEmit tb te)).map (fun r => (r.start, r.stop)) := by
  have h1 : scanAllStart tb te [c] file = scanChunkStart tb te (recsInChunk file c) := by
    simp [scanAllStart]
  have h2 : scanChunkStart tb te (recsInChunk file c)
      = ((recsInChunk file c).filter (startEmit tb te)).map (fun r => (r.start, r.stop)) :=
    scanChunkStart_eq_filter tb te _ (hcoord.sublist (List.filter_sublist _))
  rw [h1, h2]
  congr 1
  unfold recsInChunk
  rw [List.filter_filter]
  refine List.filter_congr ?_
  intro r hmem
  cases hem : startEmit tb te r
  · simp
  · simp [hcover r hmem hem]

theorem c2_start_scan_emits_exactly_in_window_witness :
    ([⟨0, false, 1, 3⟩, ⟨5, false, 4, 8⟩] : List TRecord).Pairwise
        (fun a b => a.vfo < b.vfo) ∧
    ([⟨0, false, 1, 3⟩, ⟨5, false, 4, 8⟩] : List TRecord).Pairwise
        (fun a b => a.meta = false → b.meta = false → a.start ≤ b.start) ∧
    (∀ r ∈ ([⟨0, false, 1, 3⟩, ⟨5, false, 4, 8⟩] : List TRecord),
      startEmit 2 6 r = true → inChunk (0, 10) r = true) ∧
    scanAllStart 2 6 [(0, 10)] [⟨0, false, 1, 3⟩, ⟨5, false, 4, 8⟩]
      = (([⟨0, false, 1, 3⟩, ⟨5, false, 4, 8⟩] : List TRecord).filter
          (startEmit 2 6)).map (fun r => (r.start, r.stop)) :=
  ⟨by decide, by decide, by decide,
    c2_start_scan_emits_exactly_in_window 2 6
      [⟨0, false, 1, 3⟩, ⟨5, false, 4, 8⟩] (0, 10)
      (by decide) (by decide) (by decide)⟩

/-- C3: `start_chunks(rid, start_begin, start_end)` returns the pair
`(interval[start_begin / 16384], interval[min((start_end + 1) / 16384 + 1, len - 1)])`
of the linear index of reference `rid`, and fails with `OutOfIndex` exactly
when `rid` is unknown or `start_begin / 16384 ≥ len(interval)`
(`src/index/tbi.rs`, `TabixIndex::start_chunks`). -/
theorem c3_start_chunks_formula (t : TabixIndex) (rid sb se : Nat) :
    (t.seq_index[rid]? = none → t.start_chunks rid sb se = none) ∧
    (∀ si, t.seq_index[rid]? = some si →
      (si.interval.length ≤ sb / 16384 → t.start_chunks rid sb se = none) ∧
      (sb / 16384 < si.interval.length →
        t.start_chunks rid sb se
          = some (si.interval.getD (sb / 16384) 0,
              si.interval.getD
                (min ((se + 1) / 16384 + 1) (si.interval.length - 1)) 0))) := by
  constructor
  · intro h
    simp [TabixIndex.start_chunks, h]
  · intro si h
    refine ⟨?_, ?_⟩
    · intro hlen
      have hcond : sb / LINER_INTERVAL ≥ si.interval.length := by
        simpa [LINER_INTERVAL] using hlen
      simp [TabixIndex.start_chunks, h, hcond]
    · intro hlt
      have hcond : ¬ (sb / LINER_INTERVAL ≥ si.interval.length) := by
        simp only [LINER_INTERVAL]
        omega
      by_cases he : (se + 1) / LINER_INTERVAL + 1 ≥ si.interval.length
      · have he' : si.interval.length ≤ (se + 1) / 16384 + 1 := by
          simpa [LINER_INTERVAL] using he
        have hmin : min ((se + 1) / 16384 + 1) (si.interval.length - 1)
            = si.interval.length - 1 := by omega
        simp [TabixIndex.start_chunks, h, hcond, hmin, LINER_INTERVAL, he', hlt]
      · have he' : ¬ (si.interval.length ≤ (se + 1) / 16384 + 1) := by
          simp only [ge_iff_le, LINER_INTERVAL] at he
          simpa using he
        have hmin : min ((se + 1) / 16384 + 1) (si.interval.length - 1)
            = (se + 1) / 16384 + 1 := by omega
        simp [TabixIndex.start_chunks, h, hcond, hmin, LINER_INTERVAL, he', hlt]

theorem c3_start_chunks_formula_witness :
    sampleIndex3.seq_index[0]? = some sampleSeq3 ∧
    0 / 16384 < sampleSeq3.interval.length ∧
    sampleIndex3.start_chunks 0 0 0
      = some (sampleSeq3.interval.getD (0 / 16384) 0,
          sampleSeq3.interval.getD
            (min ((0 + 1) / 16384 + 1) (sampleSeq3.interval.length - 1)) 0) :=
  ⟨by decide, by decide,
    ((c3_start_chunks_formula sampleIndex3 0 0 0).2 sampleSeq3 (by decide)).2 (by decide)⟩

/-- C4 counterexample: a TBI header whose `format` field has low 16 bits
equal to 2 but bit 16 set (`format = 0x10002`) parses with
`vcf_mode = false` and `col_end` left at its stored value 3 — the code
tests `format == 2` on the whole 32-bit value (`src/index/tbi.rs`
line 388), so such a header is not put in VCF mode and `col_end` is not
forced to 5, refuting the claim as stated. -/
theorem c4_vcf_low16_counterexample :
    (TabixIndex.new c4Bytes).map
        (fun i => (i.format % 65536, i.vcf_mode, i.col_end, i.zero_based))
      = some (2, false, 3, true) := by decide

/-- C4 (amended): the parser sets `vcf_mode` exactly when the whole 32-bit
`format` field equals 2 (so a header with low 16 bits 2 but bit 16 set is
not treated as VCF and keeps its stored `col_end`); when `format = 2`,
`col_end` is forced to 5; `zero_based` is derived from bit `0x10000`
independently of the selected format (`src/index/tbi.rs` lines 387-393). -/
theorem c4_vcf_mode_iff_format_eq_two (s : List Nat) (idx : TabixIndex)
    (h : TabixIndex.new s = some idx) :
    idx.vcf_mode = (idx.format == 2) ∧
    (idx.format = 2 → idx.col_end = 5) ∧
    idx.zero_based = decide (0 < Nat.land idx.format 65536) := by
  simp only [TabixIndex.new, Option.bind_eq_some] at h
  obtain ⟨ms, hms, h⟩ := h
  by_cases hmagic : ms.1 = [84, 66, 73, 1]
  · rw [if_pos hmagic] at h
    simp only [Option.bind_eq_some] at h
    obtain ⟨pRef, h1, h⟩ := h
    obtain ⟨pFmt, h2, h⟩ := h
    obtain ⟨pSeq, h3, h⟩ := h
    obtain ⟨pBeg, h4, h⟩ := h
    obtain ⟨pEnd, h5, h⟩ := h
    obtain ⟨pMeta, h6, h⟩ := h
    obtain ⟨pSkip, h7, h⟩ := h
    obtain ⟨pNm, h8, h⟩ := h
    obtain ⟨pNames, h9, h⟩ := h
    obtain ⟨pr, h10, h⟩ := h
    cases h
    refine ⟨rfl, ?_, rfl⟩
    intro hf
    simp only [TabixIndex.mk.injEq] at *
    simp [hf]
  · rw [if_neg hmagic] at h
    exact Option.noConfusion h

theorem c4_vcf_mode_iff_format_eq_two_witness :
    TabixIndex.new c4Bytes = some c4Idx ∧
    (c4Idx.vcf_mode = (c4Idx.format == 2) ∧
     (c4Idx.format = 2 → c4Idx.col_end = 5) ∧
     c4Idx.zero_based = decide (0 < Nat.land c4Idx.format 65536)) :=
  ⟨by decide, c4_vcf_mode_iff_format_eq_two c4Bytes c4Idx (by decide)⟩

/-- C8: `TabixFile::new` unconditionally seeks the reader to
`seq_index[0].interval[0]`; construction is total exactly when the parsed
index has at least one reference and reference 0's linear index is
non-empty — for any index violating this the accesses `seq_index[0]` or
`interval[0]` are out of bounds (`src/index/tbi.rs`, `TabixFile::new`). -/
theorem c8_tabixfile_new_seeks_first_interval (s : List Nat) (idx : TabixIndex)
    (h : TabixIndex.new s = some idx) :
    ((TabixFile.new s).isSome ↔
      idx.seq_index ≠ [] ∧
        ∀ s0, idx.seq_index[0]? = some s0 → s0.interval ≠ []) ∧
    (∀ s0 v, idx.seq_index[0]? = some s0 → s0.interval[0]? = some v →
      TabixFile.new s = some (idx, v)) := by
  have hnew : TabixFile.new s = (seekTargetOf idx).bind (fun v => some (idx, v)) := by
    simp [TabixFile.new, h]
  constructor
  · rw [hnew]
    cases hs0 : idx.seq_index[0]? with
    | none =>
      have hempty : idx.seq_index = [] := by
        cases hsq : idx.seq_index with
        | nil => rfl
        | cons a t => rw [hsq] at hs0; simp at hs0
      simp [seekTargetOf, hs0, hempty]
    | some s0 =>
      have hne : idx.seq_index ≠ [] := by
        intro hsq
        rw [hsq] at hs0
        simp at hs0
      cases hi0 : s0.interval[0]? with
      | none =>
        have hiempty : s0.interval = [] := by
          cases hsq : s0.interval with
          | nil => rfl
          | cons a t => rw [hsq] at hi0; simp at hi0
        simp [seekTargetOf, hs0, hi0, hne]
        exact hiempty
      | some v =>
        have hine : s0.interval ≠ [] := by
          intro hsq
          rw [hsq] at hi0
          simp at hi0
        simp [seekTargetOf, hs0, hi0, hne]
        exact hine
  · intro s0 v hs0 hv0
    rw [hnew]
    simp [seekTargetOf, hs0, hv0]

theorem c8_tabixfile_new_seeks_first_interval_witness :
    TabixIndex.new c8Bytes = some c8Idx ∧
    c8Idx.seq_index[0]?
      = some { n_bin := 0, bins := [], n_intv := 1, interval := [513] } ∧
    TabixFile.new c8Bytes = some (c8Idx, 513) :=
  ⟨by decide, by decide,
    (c8_tabixfile_new_seeks_first_interval c8Bytes c8Idx (by decide)).2
      { n_bin := 0, bins := [], n_intv := 1, interval := [513] } 513
      (by decide) (by decide)⟩

/-- C9 counterexample: the precondition is not necessary for totality.  The
single-field non-meta line `"x"` has fewer than `max(col_beg, col_end) = 3`
tab-separated fields, yet `read`'s line processing does not fault: the
begin field fails to parse, so the `?` operator returns a `ParseRecord`
error before `elements[col_end - 1]` is ever evaluated
(`src/index/tbi.rs` lines 103-107). -/
theorem c9_short_line_no_panic_counterexample :
    processLine c9Idx [120] = some (.error .parseRecord) ∧
    (([120] : List Nat).splitOn 9).length < max c9Idx.col_beg c9Idx.col_end := by
  constructor
  · rfl
  · decide

/-- C9 (amended): `read` accesses `data[0]` of every line returned by
`read_until` and, after splitting on tabs into at most
`max(col_seq, col_beg, col_end) + 1` fields, accesses
`elements[col_beg - 1]` and `elements[col_end - 1]` without bounds checks;
`read` is total under the precondition that every scanned line is non-empty
and every non-meta line contains at least `max(col_beg, col_end)`
tab-separated fields (and `col_beg, col_end ≥ 1`).  (The precondition is
sufficient but not necessary: an unparsable begin field returns a
`ParseRecord` error before the `col_end` access.) -/
theorem c9_processline_total_under_precondition (t : TabixIndex)
    (data : List Nat) (hdat : data ≠ [])
    (hbeg : 1 ≤ t.col_beg) (hend : 1 ≤ t.col_end)
    (hfields : ∀ b0, data[0]? = some b0 → ¬ b0 = t.meta % 256 →
      max t.col_beg t.col_end ≤ (data.splitOn 9).length) :
    (processLine t data).isSome := by
  cases hd : data[0]? with
  | none =>
    rcases data with _ | ⟨b, rest⟩
    · exact absurd rfl hdat
    · simp at hd
  | some b0 =>
    by_cases hm : b0 = t.meta % 256
    · simp [processLine, hd, hm]
    · have hflds := hfields b0 hd hm
      have hbmax : t.col_beg ≤ maxColumnPos t := le_max_left _ _
      have hemax : t.col_end ≤ maxColumnPos t :=
        le_trans (le_max_left _ _) (le_max_right _ _)
      have hlen : ((data.splitOn 9).take (maxColumnPos t + 1)).length
          = min (maxColumnPos t + 1) (data.splitOn 9).length :=
        List.length_take _ _
      have hbeglt : t.col_beg - 1
          < ((data.splitOn 9).take (maxColumnPos t + 1)).length := by
        rw [hlen]; omega
      have hendlt : t.col_end - 1
          < ((data.splitOn 9).take (maxColumnPos t + 1)).length := by
        rw [hlen]; omega
      obtain ⟨st, hst⟩ : ∃ x,
          ((data.splitOn 9).take (maxColumnPos t + 1))[t.col_beg - 1]? = some x :=
        ⟨_, List.getElem?_eq_getElem hbeglt⟩
      obtain ⟨et, het⟩ : ∃ x,
          ((data.splitOn 9).take (maxColumnPos t + 1))[t.col_end - 1]? = some x :=
        ⟨_, List.getElem?_eq_getElem hendlt⟩
      have hb0 : ¬ t.col_beg = 0 := by omega
      have he0 : ¬ t.col_end = 0 := by omega
      cases hcv : convert_data_to_u64 st with
      | none => simp [processLine, startOf, hd, hm, hst, hcv, hb0]
      | some v =>
        by_cases hv : t.vcf_mode
        · simp [processLine, startOf, hd, hm, hst, hcv, het, hv, hb0, he0]
        · by_cases hsam : t.sam_mode
          · simp [processLine, startOf, hd, hm, hst, hcv, het, hv, hsam, hb0, he0]
          · cases hce : convert_data_to_u64 et with
            | none =>
              simp [processLine, startOf, hd, hm, hst, hcv, het, hv, hsam, hce, hb0, he0]
            | some e =>
              simp [processLine, startOf, hd, hm, hst, hcv, het, hv, hsam, hce, hb0, he0]

theorem c9_processline_total_under_precondition_witness :
    ([49, 9, 50, 9, 51] : List Nat) ≠ [] ∧
    1 ≤ c9Idx.col_beg ∧ 1 ≤ c9Idx.col_end ∧
    (∀ b0, ([49, 9, 50, 9, 51] : List Nat)[0]? = some b0 →
      ¬ b0 = c9Idx.meta % 256 →
      max c9Idx.col_beg c9Idx.col_end
        ≤ (([49, 9, 50, 9, 51] : List Nat).splitOn 9).length) ∧
    (processLine c9Idx [49, 9, 50, 9, 51]).isSome :=
  ⟨by decide, by decide, by decide, by decide,
    c9_processline_total_under_precondition c9Idx [49, 9, 50, 9, 51]
      (by decide) (by decide) (by decide) (by decide)⟩

/-- C10: in one-based mode (`zero_based = false`) the scanner computes the
emitted record start as `parsed(col_beg field) - 1` in wrapping `u64`
arithmetic; for a begin field that parses to 0 the subtraction wraps modulo
`2^64`, yielding `start = 2^64 - 1` (release builds; a debug build panics
on the underflow) instead of failing with a `ParseRecord` error
(`src/index/tbi.rs` lines 103-105 and `convert_data_to_u64`). -/
theorem c10_one_based_zero_start_wraps (t : TabixIndex)
    (elements : List (List Nat)) (s : List Nat)
    (hz : t.zero_based = false) (hb : 1 ≤ t.col_beg)
    (helem : elements[t.col_beg - 1]? = some s)
    (hs : convert_data_to_u64 s = some 0) :
    startOf t elements = some (.ok (2 ^ 64 - 1)) := by
  simp only [startOf, if_neg (show ¬ t.col_beg = 0 by omega), helem, hs, hz]
  norm_num

theorem c10_one_based_zero_start_wraps_witness :
    c9Idx.zero_based = false ∧ 1 ≤ c9Idx.col_beg ∧
    ([[48]] : List (List Nat))[c9Idx.col_beg - 1]? = some [48] ∧
    convert_data_to_u64 [48] = some 0 ∧
    startOf c9Idx [[48]] = some (.ok (2 ^ 64 - 1)) :=
  ⟨by decide, by decide, by decide, by decide,
    c10_one_based_zero_start_wraps c9Idx [[48]] [48]
      (by decide) (by decide) (by decide) (by decide)⟩

theorem footerCount_writeBlock (d : List Nat → List Nat) (c : List Nat → Nat)
    (w : BGZFWriter) : footerCount (writeBlock d c w).out = footerCount w.out := by
  simp [writeBlock, footerCount, List.countP_append, List.countP_cons, isFooter]

theorem drainWrite_closed (d : List Nat → List Nat) (c : List Nat → Nat)
    (w : BGZFWriter) : (drainWrite d c w).closed = w.closed := by
  induction w using drainWrite.induct d c with
  | case1 w h ih => rw [drainWrite, dif_pos h]; rw [ih]; rfl
  | case2 w h => rw [drainWrite, dif_neg h]

theorem drainWrite_unit (d : List Nat → List Nat) (c : List Nat → Nat)
    (w : BGZFWriter) :
    (drainWrite d c w).compress_block_unit = w.compress_block_unit := by
  induction w using drainWrite.induct d c with
  | case1 w h ih => rw [drainWrite, dif_pos h]; rw [ih]; rfl
  | case2 w h => rw [drainWrite, dif_neg h]

theorem drainWrite_footerCount (d : List Nat → List Nat) (c : List Nat → Nat)
    (w : BGZFWriter) :
    footerCount (drainWrite d c w).out = footerCount w.out := by
  induction w using drainWrite.induct d c with
  | case1 w h ih =>
    rw [drainWrite, dif_pos h]
    rw [ih, footerCount_writeBlock]
  | case2 w h => rw [drainWrite, dif_neg h]

theorem drainFlush_closed (d : List Nat → List Nat) (c : List Nat → Nat)
    (w : BGZFWriter) : (drainFlush d c w).closed = w.closed := by
  induction w using drainFlush.induct d c with
  | case1 w h ih => rw [drainFlush, dif_pos h]; rw [ih]; rfl
  | case2 w h => rw [drainFlush, dif_neg h]

theorem drainFlush_unit (d : List Nat → List Nat) (c : List Nat → Nat)
    (w : BGZFWriter) :
    (drainFlush d c w).compress_block_unit = w.compress_block_unit := by
  induction w using drainFlush.induct d c with
  | case1 w h ih => rw [drainFlush, dif_pos h]; rw [ih]; rfl
  | case2 w h => rw [drainFlush, dif_neg h]

theorem drainFlush_footerCount (d : List Nat → List Nat) (c : List Nat → Nat)
    (w : BGZFWriter) :
    footerCount (drainFlush d c w).out = footerCount w.out := by
  induction w using drainFlush.induct d c with
  | case1 w h ih =>
    rw [drainFlush, dif_pos h]
    rw [ih, footerCount_writeBlock]
  | case2 w h => rw [drainFlush, dif_neg h]

theorem applyPlain_closed (d : List Nat → List Nat) (c : List Nat → Nat)
    (w : BGZFWriter) (op : PlainOp) :
    (applyPlain d c w op).closed = w.closed := by
  cases op with
  | wr data =>
    show (drainWrite d c _).closed = w.closed
    rw [drainWrite_closed]
  | fl =>
    show (drainFlush d c _).closed = w.closed
    rw [drainFlush_closed]

theorem applyPlain_unit (d : List Nat → List Nat) (c : List Nat → Nat)
    (w : BGZFWriter) (op : PlainOp) :
    (applyPlain d c w op).compress_block_unit = w.compress_block_unit := by
  cases op with
  | wr data =>
    show (drainWrite d c _).compress_block_unit = w.compress_block_unit
    rw [drainWrite_unit]
  | fl =>
    show (drainFlush d c _).compress_block_unit = w.compress_block_unit
    rw [drainFlush_unit]

theorem applyPlain_footerCount (d : List Nat → List Nat) (c : List Nat → Nat)
    (w : BGZFWriter) (op : PlainOp) :
    footerCount (applyPlain d c w op).out = footerCount w.out := by
  cases op with
  | wr data =>
    show footerCount (drainWrite d c _).out = footerCount w.out
    rw [drainWrite_footerCount]
  | fl =>
    show footerCount (drainFlush d c _).out = footerCount w.out
    rw [drainFlush_footerCount]

theorem runPlain_closed (d : List Nat → List Nat) (c : List Nat → Nat)
    (ops : List PlainOp) : ∀ w : BGZFWriter,
    (runPlain d c ops w).closed = w.closed := by
  induction ops with
  | nil => intro w; rfl
  | cons op rest ih =>
    intro w
    rw [runPlain, ih, applyPlain_closed]

theorem runPlain_unit (d : List Nat → List Nat) (c : List Nat → Nat)
    (ops : List PlainOp) : ∀ w : BGZFWriter,
    (runPlain d c ops w).compress_block_unit = w.compress_block_unit := by
  induction ops with
  | nil => intro w; rfl
  | cons op rest ih =>
    intro w
    rw [runPlain, ih, applyPlain_unit]

theorem runPlain_footerCount (d : List Nat → List Nat) (c : List Nat → Nat)
    (ops : List PlainOp) : ∀ w : BGZFWriter,
    footerCount (runPlain d c ops w).out = footerCount w.out := by
  induction ops with
  | nil => intro w; rfl
  | cons op rest ih =>
    intro w
    rw [runPlain, ih, applyPlain_footerCount]

/-- C5: writing zero bytes through a `BGZFWriter` (any number of
zero-length `write` calls) and then calling `close` produces output that
equals, byte for byte, the 28-byte canonical EOF marker and nothing else
(`src/write.rs`, `BGZFWriter::close` and `FOOTER_BYTES`). -/
theorem c5_empty_close_emits_exactly_eof_marker
    (deflate : List Nat → List Nat) (crc32 : List Nat → Nat) (n : Nat) :
    outBytes (closeOp deflate crc32
      (runPlain deflate crc32 (List.replicate n (.wr [])) BGZFWriter.new)).out
      = FOOTER_BYTES := by
  have hstep : applyPlain deflate crc32 BGZFWriter.new (.wr []) = BGZFWriter.new := by
    show drainWrite deflate crc32 _ = _
    rw [drainWrite, dif_neg]
    · simp [BGZFWriter.new]
    · simp [BGZFWriter.new, DEFAULT_COMPRESS_BLOCK_UNIT]
  have hrun : runPlain deflate crc32 (List.replicate n (.wr [])) BGZFWriter.new
      = BGZFWriter.new := by
    induction n with
    | zero => rfl
    | succ k ih =>
      rw [List.replicate_succ, runPlain, hstep, ih]
  rw [hrun, closeOp]
  rw [if_neg (by simp [BGZFWriter.new])]
  have hfl : drainFlush deflate crc32 BGZFWriter.new = BGZFWriter.new := by
    rw [drainFlush, dif_neg]
    simp [BGZFWriter.new]
  rw [hfl]
  simp [BGZFWriter.new, outBytes, OutItem.bytes]

theorem closeOp_footerCount_of_open (d : List Nat → List Nat)
    (c : List Nat → Nat) (w : BGZFWriter) (hcl : w.closed = false) :
    footerCount (closeOp d c w).out = footerCount w.out + 1 := by
  rw [closeOp, if_neg (by rw [hcl]; simp)]
  show footerCount ((drainFlush d c w).out ++ [.footer]) = _
  rw [footerCount, List.countP_append]
  have h1 : footerCount (drainFlush d c w).out = footerCount w.out :=
    drainFlush_footerCount d c w
  rw [footerCount] at h1
  rw [h1]
  simp [List.countP_cons, isFooter, footerCount]

theorem dropOp_footerCount_of_open (d : List Nat → List Nat)
    (c : List Nat → Nat) (w : BGZFWriter) (hcl : w.closed = false) :
    footerCount (dropOp d c w).out = footerCount w.out + 1 := by
  rw [dropOp, if_neg (by rw [hcl]; simp)]
  show footerCount ((drainFlush d c w).out ++ [.footer]) = _
  rw [footerCount, List.countP_append]
  have h1 : footerCount (drainFlush d c w).out = footerCount w.out :=
    drainFlush_footerCount d c w
  rw [footerCount] at h1
  rw [h1]
  simp [List.countP_cons, isFooter, footerCount]

theorem closeOp_closed (d : List Nat → List Nat) (c : List Nat → Nat)
    (w : BGZFWriter) : (closeOp d c w).closed = true := by
  by_cases hcl : w.closed
  · rw [closeOp, if_pos hcl]; exact hcl
  · rw [closeOp, if_neg hcl]

/-- C6: for every sequence of writer operations ending in explicit `close`,
scoped `drop`, or `close` followed by `drop`, the EOF marker is appended to
the underlying stream exactly once (`src/write.rs`, `BGZFWriter::close`
and the `Drop` implementation). -/
theorem c6_eof_marker_emitted_exactly_once
    (deflate : List Nat → List Nat) (crc32 : List Nat → Nat) (unit : Nat)
    (ops : List PlainOp) (fin : Finalizer) :
    footerCount (applyFin deflate crc32
      (runPlain deflate crc32 ops (BGZFWriter.with_block_size unit)) fin).out
      = 1 := by
  have hcl : (runPlain deflate crc32 ops (BGZFWriter.with_block_size unit)).closed
      = false := by
    rw [runPlain_closed]; rfl
  have hfc : footerCount
      (runPlain deflate crc32 ops (BGZFWriter.with_block_size unit)).out = 0 := by
    rw [runPlain_footerCount]; rfl
  cases fin with
  | closeOnly =>
    show footerCount (closeOp _ _ _).out = 1
    rw [closeOp_footerCount_of_open _ _ _ hcl, hfc]
  | dropOnly =>
    show footerCount (dropOp _ _ _).out = 1
    rw [dropOp_footerCount_of_open _ _ _ hcl, hfc]
  | closeThenDrop =>
    show footerCount (dropOp _ _ (closeOp _ _ _)).out = 1
    rw [dropOp, if_pos (closeOp_closed _ _ _)]
    rw [closeOp_footerCount_of_open _ _ _ hcl, hfc]

theorem writeBlock_out_bounded (d : List Nat → List Nat) (c : List Nat → Nat)
    (w : BGZFWriter)
    (hb : ∀ it ∈ w.out, isizeBounded w.compress_block_unit it) :
    ∀ it ∈ (writeBlock d c w).out, isizeBounded w.compress_block_unit it := by
  intro it hit
  simp only [writeBlock, List.mem_append] at hit
  rcases hit with hold | hnew
  · exact hb it hold
  · simp only [List.mem_singleton] at hnew
    subst hnew
    show min w.compress_block_unit w.buffer.length % 4294967296
      ≤ w.compress_block_unit
    calc min w.compress_block_unit w.buffer.length % 4294967296
        ≤ min w.compress_block_unit w.buffer.length := Nat.mod_le _ _
      _ ≤ w.compress_block_unit := min_le_left _ _

theorem drainWrite_out_bounded (d : List Nat → List Nat) (c : List Nat → Nat)
    (w : BGZFWriter)
    (hb : ∀ it ∈ w.out, isizeBounded w.compress_block_unit it) :
    ∀ it ∈ (drainWrite d c w).out, isizeBounded w.compress_block_unit it := by
  induction w using drainWrite.induct d c with
  | case1 w h ih =>
    rw [drainWrite, dif_pos h]
    exact ih (writeBlock_out_bounded d c w hb)
  | case2 w h =>
    rw [drainWrite, dif_neg h]
    exact hb

theorem drainFlush_out_bounded (d : List Nat → List Nat) (c : List Nat → Nat)
    (w : BGZFWriter)
    (hb : ∀ it ∈ w.out, isizeBounded w.compress_block_unit it) :
    ∀ it ∈ (drainFlush d c w).out, isizeBounded w.compress_block_unit it := by
  induction w using drainFlush.induct d c with
  | case1 w h ih =>
    rw [drainFlush, dif_pos h]
    exact ih (writeBlock_out_bounded d c w hb)
  | case2 w h =>
    rw [drainFlush, dif_neg h]
    exact hb

theorem applyPlain_out_bounded (d : List Nat → List Nat) (c : List Nat → Nat)
    (w : BGZFWriter) (op : PlainOp)
    (hb : ∀ it ∈ w.out, isizeBounded w.compress_block_unit it) :
    ∀ it ∈ (applyPlain d c w op).out, isizeBounded w.compress_block_unit it := by
  cases op with
  | wr data =>
    show ∀ it ∈ (drainWrite d c { w with buffer := w.buffer ++ data }).out, _
    exact drainWrite_out_bounded d c _ hb
  | fl =>
    show ∀ it ∈ (drainFlush d c w).out, _
    exact drainFlush_out_bounded d c w hb

theorem runPlain_out_bounded (d : List Nat → List Nat) (c : List Nat → Nat)
    (ops : List PlainOp) : ∀ w : BGZFWriter,
    (∀ it ∈ w.out, isizeBounded w.compress_block_unit it) →
    ∀ it ∈ (runPlain d c ops w).out, isizeBounded w.compress_block_unit it := by
  induction ops with
  | nil => intro w hb; exact hb
  | cons op rest ih =>
    intro w hb
    rw [runPlain]
    have h1 := ih (applyPlain d c w op)
      (by rw [applyPlain_unit]; exact applyPlain_out_bounded d c w op hb)
    rw [applyPlain_unit] at h1
    exact h1

theorem drainWrite_buffer_le (d : List Nat → List Nat) (c : List Nat → Nat)
    (w : BGZFWriter) (h : 0 < w.compress_block_unit) :
    (drainWrite d c w).buffer.length ≤ w.compress_block_unit := by
  induction w using drainWrite.induct d c with
  | case1 w hg ih =>
    rw [drainWrite, dif_pos hg]
    have hu : (writeBlock d c w).compress_block_unit = w.compress_block_unit := rfl
    exact le_of_le_of_eq (ih (by rw [hu]; exact hg.2)) hu
  | case2 w hg =>
    rw [drainWrite, dif_neg hg]
    omega

/-- C7: writer buffering invariant.  Blocks are emitted only while the
buffered byte count strictly exceeds `compress_block_unit`, so after every
successful `write` call at most `compress_block_unit` bytes remain
buffered; and every emitted block carries
`min(compress_block_unit, buffered)` uncompressed bytes, so no block's
recorded uncompressed size (ISIZE) ever exceeds `compress_block_unit`
(`src/write.rs`, `io::Write for BGZFWriter` and `BGZFWriter::write_block`). -/
theorem c7_writer_block_size_policy (deflate : List Nat → List Nat)
    (crc32 : List Nat → Nat) (unit : Nat) (hunit : 0 < unit)
    (ops : List PlainOp) :
    (∀ it ∈ (runPlain deflate crc32 ops (BGZFWriter.with_block_size unit)).out,
      isizeBounded unit it) ∧
    (∀ data, (writeOp deflate crc32
        (runPlain deflate crc32 ops (BGZFWriter.with_block_size unit))
        data).buffer.length ≤ unit) := by
  have hu : (runPlain deflate crc32 ops
      (BGZFWriter.with_block_size unit)).compress_block_unit = unit := by
    rw [runPlain_unit]; rfl
  constructor
  · exact runPlain_out_bounded deflate crc32 ops
      (BGZFWriter.with_block_size unit)
      (by intro it hit; simp [BGZFWriter.with_block_size] at hit)
  · intro data
    show (drainWrite deflate crc32 _).buffer.length ≤ unit
    have := drainWrite_buffer_le deflate crc32
      { runPlain deflate crc32 ops (BGZFWriter.with_block_size unit) with
        buffer := (runPlain deflate crc32 ops
          (BGZFWriter.with_block_size unit)).buffer ++ data }
      (by simpa [hu] using hunit)
    simpa [hu] using this

theorem c7_writer_block_size_policy_witness :
    0 < 2 ∧
    ((∀ it ∈ (runPlain (fun l => l) (fun _ => 0) [.wr [1, 2, 3, 4, 5]]
        (BGZFWriter.with_block_size 2)).out, isizeBounded 2 it) ∧
     (∀ data, (writeOp (fun l => l) (fun _ => 0)
        (runPlain (fun l => l) (fun _ => 0) [.wr [1, 2, 3, 4, 5]]
          (BGZFWriter.with_block_size 2)) data).buffer.length ≤ 2)) :=
  ⟨by decide,
    c7_writer_block_size_policy (fun l => l) (fun _ => 0) 2 (by decide)
      [.wr [1, 2, 3, 4, 5]]⟩
